import Mathlib

/-!
Shallow embedding of the semantic document retrieval store of this
repository (`utils/rag_utils.py` and `tools/rag_search.py`).

Python floats are modelled by exact rationals, Python ints by `Int`/`Nat`,
Python lists by `List`, and a raised exception together with the mutations
that happened before the raise by a pair `state × Option RAGError`
(Python mutations performed before an exception persist).

The embedding model (`sentence_transformers`) and the vector index
(`faiss.IndexFlatL2`) are third-party libraries, not code of this repository;
they are modelled from the spec: the embedder is a per-string function
that may fail (`Encoder`), and the index performs exact k-nearest-neighbor
search by squared Euclidean distance, ascending distance with ties broken
by ascending insertion id, with k clamped to the index size.
-/

attribute [local semireducible] Rat.add Rat.sub Rat.mul Rat.inv

instance {ε α : Type} [DecidableEq ε] [DecidableEq α] :
    DecidableEq (Except ε α) := fun x y =>
  match x, y with
  | .ok a, .ok b =>
    if h : a = b then isTrue (by rw [h]) else isFalse (by simp [h])
  | .ok _, .error _ => isFalse (by simp)
  | .error _, .ok _ => isFalse (by simp)
  | .error e, .error e2 =>
    if h : e = e2 then isTrue (by rw [h]) else isFalse (by simp [h])

/-- Errors that the Python code can raise, as far as the retrieval core is
concerned.  `validationError` is a `ValueError` raised by an explicit
input check; `embeddingError` is a failure inside the embedding model;
`numpyRaggedError` is the `ValueError` numpy raises when
`np.array(self.embeddings)` receives rows of differing lengths;
`faissDimError` is the error faiss raises when added vectors do not match
the index dimension. -/
inductive RAGError where
  | validationError (msg : String)
  | embeddingError (msg : String)
  | numpyRaggedError
  | faissDimError
deriving DecidableEq

/-- The Python guard `not s or not s.strip()`: true exactly when the
string is empty or consists only of whitespace characters. -/
def isBlank (s : String) : Bool := s.data.all (fun c => c.isWhitespace)

/-- A per-string embedding model that may fail.  Modelled from the spec:
the EmbeddingProvider maps text to fixed-dimension vectors and is an
outside collaborator that can be unavailable. -/
def Encoder : Type := String → Except String (List ℚ)

/-- An always-succeeding encoder built from a total embedding function. -/
def pureEnc (g : String → List ℚ) : Encoder := fun s => .ok (g s)

/-- `model.encode(batch)`: embeds every string of the batch in order and
fails as a whole if any single embedding fails. -/
def encodeBatch (f : Encoder) : List String → Except String (List (List ℚ))
  | [] => .ok []
  | s :: rest =>
    match f s with
    | .error e => .error e
    | .ok v =>
      match encodeBatch f rest with
      | .error e => .error e
      | .ok vs => .ok (v :: vs)

/-- `np.array(rows).astype(float32).shape[1]`: succeeds with the common row
length when all rows have the same length, fails (ragged array) otherwise. -/
def dimOf : List (List ℚ) → Option ℕ
  | [] => none
  | v :: vs => if vs.all (fun w => w.length = v.length) then some v.length else none

/-- Squared Euclidean distance between two vectors of equal dimension. -/
def sqDist (a b : List ℚ) : ℚ :=
  ((a.zip b).map (fun p => (p.1 - p.2) * (p.1 - p.2))).sum

/-- Modelled from the spec: the vector index (`faiss.IndexFlatL2`) holds a
fixed dimension and the vectors added so far, in insertion order. -/
structure FaissIndex where
  dimension : ℕ
  vectors : List (List ℚ)
deriving DecidableEq

/-- `index.add(vectors)`: appends the vectors if their dimension matches
the index dimension, otherwise fails without mutating the index. -/
def FaissIndex.add (idx : FaissIndex) (vs : List (List ℚ)) :
    Except RAGError FaissIndex :=
  if vs.all (fun v => v.length = idx.dimension) then
    .ok { idx with vectors := idx.vectors ++ vs }
  else .error .faissDimError

/-- Pair every stored vector with its squared distance to the query vector
and its insertion id, starting at id `i`. -/
def scoreVectorsFrom (qv : List ℚ) (i : ℕ) : List (List ℚ) → List (ℚ × ℕ)
  | [] => []
  | v :: vs => (sqDist qv v, i) :: scoreVectorsFrom qv (i + 1) vs

/-- The comparison used to rank search results: ascending distance, ties
broken by ascending insertion id (deterministic ordering, spec section 4.2). -/
def distLe (a b : ℚ × ℕ) : Prop := a.1 < b.1 ∨ (a.1 = b.1 ∧ a.2 ≤ b.2)

instance : DecidableRel distLe := fun a b =>
  inferInstanceAs (Decidable (a.1 < b.1 ∨ (a.1 = b.1 ∧ a.2 ≤ b.2)))

instance : IsTotal (ℚ × ℕ) distLe where
  total a b := by
    unfold distLe
    rcases lt_trichotomy a.1 b.1 with h | h | h
    · exact Or.inl (Or.inl h)
    · rcases Nat.le_total a.2 b.2 with h2 | h2
      · exact Or.inl (Or.inr ⟨h, h2⟩)
      · exact Or.inr (Or.inr ⟨h.symm, h2⟩)
    · exact Or.inr (Or.inl h)

instance : IsTrans (ℚ × ℕ) distLe where
  trans a b c hab hbc := by
    unfold distLe at *
    rcases hab with h1 | ⟨h1, h1n⟩
    · rcases hbc with h2 | ⟨h2, _⟩
      · exact Or.inl (h1.trans h2)
      · exact Or.inl (h2 ▸ h1)
    · rcases hbc with h2 | ⟨h2, h2n⟩
      · exact Or.inl (h1 ▸ h2)
      · exact Or.inr ⟨h1.trans h2, h1n.trans h2n⟩

/-- Modelled from the spec (section 4.2): `index.search(qv, k)` returns the
`min k (index size)` stored vectors closest to `qv` by squared Euclidean
distance, as (distance, insertion id) pairs in ascending distance order,
ties broken by ascending insertion id; an empty index yields an empty list
and an oversized or non-positive `k` is clamped, never an error. -/
def FaissIndex.search (idx : FaissIndex) (qv : List ℚ) (k : ℤ) :
    List (ℚ × ℕ) :=
  ((scoreVectorsFrom qv 0 idx.vectors).insertionSort distLe).take
    (min k (idx.vectors.length : ℤ)).toNat

/-- The similarity transform of the code:
`similarity_score = 1.0 / (1.0 + distance)`. -/
def sim (d : ℚ) : ℚ := 1 / (1 + d)

/-- `round(x, 4)`: rounding to 4 decimal places. -/
def round4 (q : ℚ) : ℚ := (round (q * 10000) : ℤ) / 10000

/-- One formatted search result, as built in `SimpleRAGStore.search`. -/
structure SearchResult where
  rank : ℕ
  document : String
  score : ℚ
  distance : ℚ
deriving DecidableEq

instance : Inhabited SearchResult := ⟨⟨0, "", 0, 0⟩⟩

/-- The result-formatting loop of `SimpleRAGStore.search`:
`for i, (distance, idx) in enumerate(zip(distances[0], indices[0]))`, with
`i` starting at `i0`; an entry is kept only `if idx < len(self.documents)`,
and `i` advances over dropped entries as well, so ranks are positions in
the raw hit list. -/
def formatFrom (docs : List String) (i0 : ℕ) : List (ℚ × ℕ) → List SearchResult
  | [] => []
  | (dist, idx) :: rest =>
    if idx < docs.length then
      ⟨i0 + 1, docs.getD idx "", round4 (sim dist), dist⟩ ::
        formatFrom docs (i0 + 1) rest
    else formatFrom docs (i0 + 1) rest

/-- The state of a `SimpleRAGStore`: `self.documents`, `self.embeddings`
and `self.index` (which is `None` until the first successful add). -/
structure RAGStore where
  documents : List String
  embeddings : List (List ℚ)
  index : Option FaissIndex
deriving DecidableEq

/-- A freshly constructed `SimpleRAGStore()`. -/
def RAGStore.empty : RAGStore := ⟨[], [], none⟩

/-- `SimpleRAGStore.add_documents`, line by line.  The returned pair is the
store state after the call together with the exception raised, if any:
mutations performed before the raise persist, exactly as in Python.
Note two faithfully reproduced behaviors of the source:
`self.documents.extend(documents)` runs before any embedding is computed,
and `self.index.add(...)` is passed the array built from ALL of
`self.embeddings`, not just the new batch. -/
def RAGStore.add_documents (f : Encoder) (s : RAGStore) (docs : List String) :
    RAGStore × Option RAGError :=
  if docs.isEmpty then (s, none)
  else
    let s1 : RAGStore := { s with documents := s.documents ++ docs }
    match encodeBatch f docs with
    | .error e => (s1, some (.embeddingError e))
    | .ok newEmb =>
      let s2 : RAGStore := { s1 with embeddings := s1.embeddings ++ newEmb }
      match dimOf s2.embeddings with
      | none => (s2, some .numpyRaggedError)
      | some d =>
        match s2.index with
        | none =>
          let fresh : FaissIndex := ⟨d, []⟩
          match fresh.add s2.embeddings with
          | .error e => ({ s2 with index := some fresh }, some e)
          | .ok idx2 => ({ s2 with index := some idx2 }, none)
        | some idx =>
          match idx.add s2.embeddings with
          | .error e => (s2, some e)
          | .ok idx2 => ({ s2 with index := some idx2 }, none)

/-- `SimpleRAGStore.search`, line by line: no query validation, empty index
or empty corpus short-circuit to an empty result list, `top_k` is clamped
to the corpus size, and hits are formatted with the rounded similarity
score and the raw distance. -/
def RAGStore.search (f : Encoder) (s : RAGStore) (query : String)
    (top_k : ℤ) : Except RAGError (List SearchResult) :=
  match s.index with
  | none => .ok []
  | some idx =>
    if s.documents.length = 0 then .ok []
    else
      match f query with
      | .error e => .error (.embeddingError e)
      | .ok qv =>
        let k := min top_k (s.documents.length : ℤ)
        .ok (formatFrom s.documents 0 (idx.search qv k))

/-- `SimpleRAGStore.clear`. -/
def RAGStore.clear (_s : RAGStore) : RAGStore := RAGStore.empty

/-- `create_rag_store(documents)`. -/
def create_rag_store (f : Encoder) (documents : List String) :
    RAGStore × Option RAGError :=
  if documents.isEmpty then (RAGStore.empty, none)
  else RAGStore.add_documents f RAGStore.empty documents

/-- `semantic_search(query, documents, top_k)`. -/
def semantic_search (f : Encoder) (query : String) (documents : List String)
    (top_k : ℤ) : Except RAGError (List SearchResult) :=
  match create_rag_store f documents with
  | (_, some e) => .error e
  | (store, none) => store.search f query top_k

/-- The response record of `search_documents`. -/
structure SearchResponse where
  query : String
  total_documents : ℕ
  returned_results : ℕ
  results : List SearchResult
deriving DecidableEq

/-- `search_documents(query, documents, top_k)`: validates that the query
is not empty/whitespace and that the document list is not empty (and
nothing else), then performs an ephemeral semantic search. -/
def search_documents (f : Encoder) (query : String) (documents : List String)
    (top_k : ℤ) : Except RAGError SearchResponse :=
  if isBlank query then .error (.validationError "Query cannot be empty")
  else if documents.length = 0 then
    .error (.validationError "Documents list cannot be empty")
  else
    match semantic_search f query documents top_k with
    | .error e => .error e
    | .ok results =>
      .ok ⟨query, documents.length, results.length, results⟩

/-- One per-query entry of the `multi_query_search` response: a success
entry carries `error = none` and the result list; a failure entry carries
the caught error and an empty result list. -/
structure QueryEntry where
  query : String
  error : Option RAGError
  results : List SearchResult
deriving DecidableEq

instance : Inhabited QueryEntry := ⟨⟨"", none, []⟩⟩

/-- The response record of `multi_query_search`; `results` lists the
per-query entries in input order (`query_1`, `query_2`, ...). -/
structure MultiResponse where
  total_queries : ℕ
  total_documents : ℕ
  results : List QueryEntry
deriving DecidableEq

/-- `multi_query_search(queries, documents, top_k)`: builds one store, then
runs every query, catching the failure of each query in a per-item entry. -/
def multi_query_search (f : Encoder) (queries : List String)
    (documents : List String) (top_k : ℤ) : Except RAGError MultiResponse :=
  if queries.isEmpty || documents.isEmpty then
    .error (.validationError "Both queries and documents must be provided")
  else
    match create_rag_store f documents with
    | (_, some e) => .error e
    | (store, none) =>
      .ok ⟨queries.length, documents.length,
        queries.map (fun q =>
          match store.search f q top_k with
          | .ok r => ⟨q, none, r⟩
          | .error e => ⟨q, some e, []⟩)⟩

/-- The response record of `find_similar_documents`. -/
structure SimilarResponse where
  target_document : String
  corpus_size : ℕ
  similar_documents : List SearchResult
deriving DecidableEq

/-- `target_doc[:200] + "..." if len(target_doc) > 200 else target_doc`. -/
def truncatePreview (t : String) : String :=
  if 200 < t.length then String.mk (t.data.take 200 ++ "...".data) else t

/-- `find_similar_documents(target_doc, documents, top_k)`: uses the full
target text as the query over the full corpus; only the echoed
`target_document` field is truncated for display. -/
def find_similar_documents (f : Encoder) (target_doc : String)
    (documents : List String) (top_k : ℤ) : Except RAGError SimilarResponse :=
  if target_doc = "" || documents.isEmpty then
    .error (.validationError "Target document and documents list must be provided")
  else
    match semantic_search f target_doc documents top_k with
    | .error e => .error e
    | .ok results =>
      .ok ⟨truncatePreview target_doc, documents.length, results⟩

/-- Number of vectors currently held by the index of the store (0 when the
index is still `None`). -/
def RAGStore.indexSize (s : RAGStore) : ℕ :=
  match s.index with
  | none => 0
  | some idx => idx.vectors.length

/-- Whether a result is a `ValidationError` raised by an explicit input
check (as opposed to any other failure). -/
def isValidationErr {α : Type} : Except RAGError α → Bool
  | .error (.validationError _) => true
  | _ => false

/-! ## Helper lemmas -/

theorem encodeBatch_pure (g : String → List ℚ) :
    ∀ l : List String, encodeBatch (pureEnc g) l = .ok (l.map g)
  | [] => rfl
  | s :: rest => by
    simp [encodeBatch, pureEnc, encodeBatch_pure g rest]

theorem encodeBatch_length (f : Encoder) :
    ∀ (l : List String) (vs : List (List ℚ)),
      encodeBatch f l = .ok vs → vs.length = l.length
  | [], vs, h => by
    simp [encodeBatch] at h
    simp [← h]
  | s :: rest, vs, h => by
    unfold encodeBatch at h
    cases hf : f s with
    | error e => rw [hf] at h; exact absurd h (by simp)
    | ok v =>
      rw [hf] at h
      cases hr : encodeBatch f rest with
      | error e => rw [hr] at h; exact absurd h (by simp)
      | ok ws =>
        rw [hr] at h
        cases h
        simpa using encodeBatch_length f rest ws hr

theorem dimOf_const (d : ℕ) :
    ∀ l : List (List ℚ), l ≠ [] → (∀ v ∈ l, v.length = d) → dimOf l = some d
  | [], h, _ => absurd rfl h
  | v :: vs, _, hall => by
    have hv : v.length = d := hall v (by simp)
    have : vs.all (fun w => w.length = v.length) = true := by
      simp only [List.all_eq_true, decide_eq_true_eq]
      intro w hw
      rw [hall w (by simp [hw]), hv]
    simp [dimOf, this, hv]
    intro x hx
    exact hall x (by simp [hx])

theorem dimOf_mixed (w : List ℚ) (l : List (List ℚ)) (u : List ℚ) (hu : u ∈ l)
    (hne : u.length ≠ w.length) : dimOf (w :: l) = none := by
  have : l.all (fun x => x.length = w.length) = false := by
    simp only [List.all_eq_false, decide_eq_true_eq]
    exact ⟨u, hu, hne⟩
  simp [dimOf, this]

/-! ## C9: an empty add is a silent no-op -/

/-- C9: for every store state and every encoder, calling
`SimpleRAGStore.add_documents` with an empty document list raises no error
and leaves the store completely unchanged. -/
theorem add_documents_nil_noop (f : Encoder) (s : RAGStore) :
    RAGStore.add_documents f s [] = (s, none) := by
  simp [RAGStore.add_documents]

/-! ## C1: add_documents is NOT atomic -/

/-- An encoder whose embedding computation always fails. -/
def encFail : Encoder := fun _ => .error "model unavailable"

/-- C1 counterexample: when embedding computation fails during
`add_documents`, the store is NOT rolled back — starting from the empty
store, adding `["a"]` with a failing embedder raises, yet afterwards the
documents list holds `["a"]`, different from its value before the call. -/
theorem add_documents_not_atomic_cex :
    (RAGStore.add_documents encFail RAGStore.empty ["a"]).2 =
        some (.embeddingError "model unavailable") ∧
    (RAGStore.add_documents encFail RAGStore.empty ["a"]).1.documents = ["a"] ∧
    RAGStore.empty.documents = [] := by
  decide

/-- C1 amended: if embedding computation fails during a non-empty
`add_documents`, the call raises the embedding error and leaves the store
with its documents list already extended by the batch (appended before the
embedding computation), while embeddings and index keep their prior
values — there is no rollback. -/
theorem add_documents_embed_fail_keeps_documents (f : Encoder) (s : RAGStore)
    (docs : List String) (e : String) (hne : docs ≠ [])
    (henc : encodeBatch f docs = .error e) :
    RAGStore.add_documents f s docs =
      ({ s with documents := s.documents ++ docs },
        some (.embeddingError e)) := by
  have h0 : docs.isEmpty = false := by
    cases docs with
    | nil => exact absurd rfl hne
    | cons a l => rfl
  simp [RAGStore.add_documents, h0, henc]

/-- Witness for the amended C1 theorem at a concrete input. -/
theorem add_documents_embed_fail_keeps_documents_witness :
    RAGStore.add_documents encFail RAGStore.empty ["a"] =
      ({ RAGStore.empty with documents := RAGStore.empty.documents ++ ["a"] },
        some (.embeddingError "model unavailable")) :=
  add_documents_embed_fail_keeps_documents encFail RAGStore.empty ["a"]
    "model unavailable" (by simp) (by rfl)

/-! ## C5: a dimension-mismatched add raises but still mutates the store -/

/-- A store with established embedding dimension 2: one document, one
stored dimension-2 embedding and an index of one dimension-2 vector. -/
def storeDim2 : RAGStore := ⟨["a"], [[0, 0]], some ⟨2, [[0, 0]]⟩⟩

/-- An encoder that embeds every string to a dimension-3 vector. -/
def encDim3 : Encoder := pureEnc (fun _ => [0, 0, 0])

/-- C5 counterexample: a later `add_documents` whose batch embeds to a
different dimension raises, but it does NOT leave the corpus length
unchanged — against `storeDim2` (dimension 2, one document), adding one
document with a dimension-3 embedder raises the ragged-array error while
the corpus length grows from 1 to 2. -/
theorem add_documents_dim_mismatch_mutates_cex :
    (RAGStore.add_documents encDim3 storeDim2 ["b"]).2 =
        some .numpyRaggedError ∧
    (RAGStore.add_documents encDim3 storeDim2 ["b"]).1.documents.length = 2 ∧
    storeDim2.documents.length = 1 := by
  decide

/-- C5 amended: for every store with established embedding dimension `d`
(non-empty stored embeddings, all of dimension `d`), an `add_documents`
call whose non-empty batch embeds to a different dimension `d2` fails with
the ragged-array error (how the code manifests the dimension
mismatch) and leaves the index unchanged, but the corpus and the stored
embeddings have already been extended by the batch — the corpus length is
NOT unchanged. -/
theorem add_documents_dim_mismatch_still_mutates (f : Encoder)
    (s : RAGStore) (docs : List String) (vs : List (List ℚ)) (d d2 : ℕ)
    (hne : docs ≠ []) (hemb : s.embeddings ≠ [])
    (hdim : ∀ v ∈ s.embeddings, v.length = d)
    (henc : encodeBatch f docs = .ok vs)
    (hvs : ∀ v ∈ vs, v.length = d2) (hd2 : d2 ≠ d) :
    RAGStore.add_documents f s docs =
      ({ s with documents := s.documents ++ docs,
                embeddings := s.embeddings ++ vs }, some .numpyRaggedError) := by
  have h0 : docs.isEmpty = false := by
    cases docs with
    | nil => exact absurd rfl hne
    | cons a l => rfl
  obtain ⟨w, rest, hw⟩ := List.exists_cons_of_ne_nil hemb
  have hvsne : vs ≠ [] := by
    intro hnil
    have := encodeBatch_length f docs vs henc
    rw [hnil] at this
    cases docs with
    | nil => exact hne rfl
    | cons a l => simp at this
  obtain ⟨u, utail, hu⟩ := List.exists_cons_of_ne_nil hvsne
  have hwlen : w.length = d := hdim w (by simp [hw])
  have hulen : u.length = d2 := hvs u (by simp [hu])
  have hmix : dimOf (s.embeddings ++ vs) = none := by
    rw [hw]
    simp only [List.cons_append]
    refine dimOf_mixed w (rest ++ vs) u ?_ ?_
    · simp [hu]
    · rw [hulen, hwlen]; exact hd2
  simp [RAGStore.add_documents, h0, henc, hmix]

/-- Witness for the amended C5 theorem at a concrete input. -/
theorem add_documents_dim_mismatch_still_mutates_witness :
    RAGStore.add_documents encDim3 storeDim2 ["b"] =
      ({ storeDim2 with documents := storeDim2.documents ++ ["b"],
                        embeddings := storeDim2.embeddings ++ [[0, 0, 0]] },
        some .numpyRaggedError) :=
  add_documents_dim_mismatch_still_mutates encDim3 storeDim2 ["b"]
    [[0, 0, 0]] 2 3 (by simp) (by decide) (by decide) (by rfl) (by decide)
    (by decide)

/-! ## C2: invariant I1 breaks on the second successful add -/

/-- An encoder that embeds every string to the dimension-1 vector `[0]`. -/
def encOneDim : Encoder := pureEnc (fun _ => [0])

/-- C2: the code violates invariant I1.  Starting from the empty store,
`add_documents(["a"])` followed by `add_documents(["b"])` both succeed
(no error is raised), and afterwards the corpus and the stored embeddings
hold 2 entries, but the index holds 3 vectors: the second call re-adds ALL
stored embeddings (old and new) to the already-populated index, so the
index size no longer equals the corpus length. -/
theorem second_add_breaks_index_size_invariant :
    (RAGStore.add_documents encOneDim
        (RAGStore.add_documents encOneDim RAGStore.empty ["a"]).1 ["b"]).2 =
      none ∧
    (RAGStore.add_documents encOneDim
        (RAGStore.add_documents encOneDim RAGStore.empty ["a"]).1
        ["b"]).1.documents.length = 2 ∧
    (RAGStore.add_documents encOneDim
        (RAGStore.add_documents encOneDim RAGStore.empty ["a"]).1
        ["b"]).1.embeddings.length = 2 ∧
    (RAGStore.add_documents encOneDim
        (RAGStore.add_documents encOneDim RAGStore.empty ["a"]).1
        ["b"]).1.indexSize = 3 := by
  decide

/-! ## C4: which inputs raise ValidationError -/

theorem faiss_add_error_eq (idx : FaissIndex) (vs : List (List ℚ))
    (e : RAGError) (h : FaissIndex.add idx vs = .error e) :
    e = .faissDimError := by
  unfold FaissIndex.add at h
  split at h
  · exact absurd h (by simp)
  · simp only [Except.error.injEq] at h
    exact h.symm

theorem add_documents_err_shape (f : Encoder) (s : RAGStore)
    (docs : List String) (e : RAGError)
    (h : (RAGStore.add_documents f s docs).2 = some e) :
    (∃ m, e = .embeddingError m) ∨ e = .numpyRaggedError ∨
      e = .faissDimError := by
  unfold RAGStore.add_documents at h
  split at h
  · simp at h
  · split at h
    · simp only [Option.some.injEq] at h
      exact Or.inl ⟨_, h.symm⟩
    · dsimp only at h
      split at h
      · simp only [Option.some.injEq] at h
        exact Or.inr (Or.inl h.symm)
      · split at h
        · split at h
          · rename_i heq
            simp only [Option.some.injEq] at h
            exact Or.inr (Or.inr (h ▸ faiss_add_error_eq _ _ _ heq))
          · simp at h
        · split at h
          · rename_i heq
            simp only [Option.some.injEq] at h
            exact Or.inr (Or.inr (h ▸ faiss_add_error_eq _ _ _ heq))
          · simp at h

theorem search_err_shape (f : Encoder) (s : RAGStore) (q : String) (k : ℤ)
    (e : RAGError) (h : RAGStore.search f s q k = .error e) :
    ∃ m, e = .embeddingError m := by
  unfold RAGStore.search at h
  split at h
  · simp at h
  · split at h
    · simp at h
    · split at h
      · simp only [Except.error.injEq] at h
        exact ⟨_, h.symm⟩
      · simp at h

theorem isValidationErr_error_false {α : Type} (e : RAGError)
    (h : ∀ m, e ≠ .validationError m) :
    isValidationErr (α := α) (.error e) = false := by
  cases e with
  | validationError m => exact absurd rfl (h m)
  | embeddingError m => rfl
  | numpyRaggedError => rfl
  | faissDimError => rfl

theorem semantic_search_err_shape (f : Encoder) (q : String)
    (D : List String) (k : ℤ) (e : RAGError)
    (h : semantic_search f q D k = .error e) :
    (∃ m, e = .embeddingError m) ∨ e = .numpyRaggedError ∨
      e = .faissDimError := by
  unfold semantic_search at h
  split at h
  · rename_i s e2 heq
    simp only [Except.error.injEq] at h
    have h2 : (create_rag_store f D).2 = some e := by
      rw [heq]
      simp [h]
    unfold create_rag_store at h2
    split at h2
    · simp at h2
    · exact add_documents_err_shape f RAGStore.empty D e h2
  · exact Or.inl (search_err_shape f _ q k e h)

/-- C4 counterexample: `top_k` is not validated — `search_documents` with
`top_k = 0`, a non-blank query and a non-empty corpus raises no
`ValidationError` at all: it returns normally with an empty result list. -/
theorem search_documents_topk_not_validated_cex :
    search_documents encOneDim "q" ["a"] 0 = .ok ⟨"q", 1, 0, []⟩ ∧
    isValidationErr (search_documents encOneDim "q" ["a"] 0) = false := by
  decide

/-- C4 amended: `search_documents` fails with `ValidationError` exactly
when the query is empty or whitespace-only, or the document list is empty;
these checks run before any search computation, and no other input —
in particular no non-positive `top_k` — ever produces a
`ValidationError`. -/
theorem search_documents_validation_iff (f : Encoder) (q : String)
    (D : List String) (k : ℤ) :
    isValidationErr (search_documents f q D k) = (isBlank q || D.isEmpty) := by
  unfold search_documents
  by_cases hb : isBlank q
  · simp [hb, isValidationErr]
  · rw [if_neg (by simp [hb]), Bool.eq_false_iff.mpr hb, Bool.false_or]
    by_cases hD : D.isEmpty
    · have : D.length = 0 := by
        cases D with
        | nil => rfl
        | cons a l => simp at hD
      simp [this, hD, isValidationErr]
    · have hlen : ¬ D.length = 0 := by
        cases D with
        | nil => simp at hD
        | cons a l => simp
      rw [if_neg hlen, Bool.eq_false_iff.mpr hD]
      cases hsem : semantic_search f q D k with
      | ok r => rfl
      | error e =>
        obtain hsh := semantic_search_err_shape f q D k e hsem
        apply isValidationErr_error_false
        intro m hm
        rcases hsh with ⟨m2, rfl⟩ | rfl | rfl <;> simp at hm

/-! ## C6: per-query isolation in multi_query_search -/

theorem getD_map_of_lt {α β : Type} (fn : α → β) (db : β) (da : α) :
    ∀ (l : List α) (i : ℕ), i < l.length →
      (l.map fn).getD i db = fn (l.getD i da)
  | a :: l, 0, _ => rfl
  | a :: l, i + 1, h => getD_map_of_lt fn db da l i (by simpa using h)
  | [], i, h => absurd h (by simp)

/-- An encoder that embeds every string to the dimension-1 vector holding
its length. -/
def encLen : Encoder := pureEnc (fun s => [(s.length : ℚ)])

/-- C6 counterexample: with a working embedding model,
`multi_query_search(["machine learning", ""], D, 3)` over a two-document
corpus does NOT produce an error entry for the empty query:
`total_queries` is 2, but the second entry has no error and carries two
ordinary results — `SimpleRAGStore.search` performs no query validation,
so the empty string is not a failing query. -/
theorem multi_query_empty_query_no_error_entry_cex :
    (multi_query_search encLen ["machine learning", ""]
        ["machine learning uses data", "cats"] 3).toOption.map
      (fun r => (r.total_queries,
        (r.results.getD 1 default).error.isSome,
        (r.results.getD 1 default).results.length)) = some (2, false, 2) := by
  decide

/-- C6 amended: `multi_query_search` runs every query against the shared
store and catches the failure of each query in its own entry: the response
always carries `total_queries` equal to the number of input queries and
one entry per query in order; an entry records an error exactly when that
own search of that query raised (e.g., its embedding failed), and a query whose
search succeeded keeps its results regardless of the other queries — but
an empty-string query is not by itself a failure. -/
theorem multi_query_search_isolates (f : Encoder)
    (queries documents : List String) (top_k : ℤ) (store : RAGStore)
    (hq : queries ≠ []) (hd : documents ≠ [])
    (hstore : create_rag_store f documents = (store, none)) :
    ∃ resp, multi_query_search f queries documents top_k = .ok resp ∧
      resp.total_queries = queries.length ∧
      resp.results.length = queries.length ∧
      ∀ i, i < queries.length →
        (resp.results.getD i default).query = queries.getD i "" ∧
        ((resp.results.getD i default).error = none →
          RAGStore.search f store (queries.getD i "") top_k =
            .ok (resp.results.getD i default).results) ∧
        (∀ e, (resp.results.getD i default).error = some e →
          RAGStore.search f store (queries.getD i "") top_k = .error e) := by
  have hqE : queries.isEmpty = false := by
    cases queries with
    | nil => exact absurd rfl hq
    | cons a l => rfl
  have hdE : documents.isEmpty = false := by
    cases documents with
    | nil => exact absurd rfl hd
    | cons a l => rfl
  unfold multi_query_search
  rw [hqE, hdE]
  simp only [Bool.or_self, Bool.false_eq_true, if_false, hstore]
  refine ⟨_, rfl, rfl, by simp, ?_⟩
  intro i hi
  rw [getD_map_of_lt _ _ "" queries i hi]
  cases hs : RAGStore.search f store (queries.getD i "") top_k with
  | ok r =>
    refine ⟨rfl, ?_, ?_⟩
    · intro _; rfl
    · intro e he; simp at he
  | error e =>
    refine ⟨rfl, ?_, ?_⟩
    · intro h; simp at h
    · intro e2 he2
      simp only [Option.some.injEq] at he2
      rw [← he2]

/-- An encoder that fails on the string "boom" and embeds everything else
to the dimension-1 vector `[0]`. -/
def encFlaky : Encoder :=
  fun s => if s = "boom" then .error "embedding failed" else .ok [0]

/-- The store `create_rag_store` builds from `["d"]` with `encFlaky`. -/
def storeFlaky : RAGStore := ⟨["d"], [[0]], some ⟨1, [[0]]⟩⟩

/-- Witness for the amended C6 theorem at a concrete input with one
succeeding and one failing query. -/
theorem multi_query_search_isolates_witness :
    ∃ resp, multi_query_search encFlaky ["good", "boom"] ["d"] 3 =
        .ok resp ∧
      resp.total_queries = ["good", "boom"].length ∧
      resp.results.length = ["good", "boom"].length ∧
      ∀ i, i < ["good", "boom"].length →
        (resp.results.getD i default).query = ["good", "boom"].getD i "" ∧
        ((resp.results.getD i default).error = none →
          RAGStore.search encFlaky storeFlaky
              (["good", "boom"].getD i "") 3 =
            .ok (resp.results.getD i default).results) ∧
        (∀ e, (resp.results.getD i default).error = some e →
          RAGStore.search encFlaky storeFlaky
              (["good", "boom"].getD i "") 3 = .error e) :=
  multi_query_search_isolates encFlaky ["good", "boom"] ["d"] 3 storeFlaky
    (by simp) (by simp) (by decide)

/-! ## C8: find_similar_documents truncates only the preview -/

/-- C8: for every encoder, target text, corpus and `top_k`, when the
validation guards pass and the underlying search succeeds,
`find_similar_documents` returns exactly the results of semantically
searching the FULL corpus with the FULL untruncated target text, and only
the echoed `target_document` preview is truncated: it is the first 200
characters followed by "..." when the target exceeds 200 characters, and
the full target text otherwise. -/
theorem find_similar_documents_full_text_search (f : Encoder) (t : String)
    (D : List String) (k : ℤ) (rs : List SearchResult)
    (ht : t ≠ "") (hD : D ≠ []) (h : semantic_search f t D k = .ok rs) :
    find_similar_documents f t D k = .ok ⟨truncatePreview t, D.length, rs⟩ ∧
    truncatePreview t =
      (if 200 < t.length then String.mk (t.data.take 200 ++ "...".data)
       else t) := by
  have hDE : D.isEmpty = false := by
    cases D with
    | nil => exact absurd rfl hD
    | cons a l => rfl
  refine ⟨?_, rfl⟩
  unfold find_similar_documents
  rw [decide_eq_false ht, hDE]
  simp [h]

/-- Witness for the C8 theorem at a concrete input. -/
theorem find_similar_documents_full_text_search_witness :
    find_similar_documents encOneDim "tgt" ["a"] 1 =
        .ok ⟨truncatePreview "tgt", ["a"].length, [⟨1, "a", 1, 0⟩]⟩ ∧
    truncatePreview "tgt" =
      (if 200 < "tgt".length then
        String.mk ("tgt".data.take 200 ++ "...".data)
       else "tgt") :=
  find_similar_documents_full_text_search encOneDim "tgt" ["a"] 1
    [⟨1, "a", 1, 0⟩] (by simp) (by simp) (by decide)

/-! ## C10 and C7: shape of successful search results -/

theorem getD_mem_of_lt {α : Type} (l : List α) (i : ℕ) (d : α)
    (h : i < l.length) : l.getD i d ∈ l := by
  rw [List.getD_eq_getElem?_getD, List.getElem?_eq_getElem h]
  exact List.getElem_mem h

theorem formatFrom_doc_mem (docs : List String) :
    ∀ (i0 : ℕ) (raw : List (ℚ × ℕ)) (r : SearchResult),
      r ∈ formatFrom docs i0 raw → r.document ∈ docs
  | _, [], r, h => absurd h (by simp [formatFrom])
  | i0, (dist, idx) :: rest, r, h => by
    unfold formatFrom at h
    by_cases hidx : idx < docs.length
    · rw [if_pos hidx] at h
      rcases List.mem_cons.mp h with rfl | h2
      · exact getD_mem_of_lt docs idx "" hidx
      · exact formatFrom_doc_mem docs (i0 + 1) rest r h2
    · rw [if_neg hidx] at h
      exact formatFrom_doc_mem docs (i0 + 1) rest r h

theorem formatFrom_shape (docs : List String) :
    ∀ (i0 : ℕ) (raw : List (ℚ × ℕ)) (r : SearchResult),
      r ∈ formatFrom docs i0 raw →
      ∃ p ∈ raw, r.distance = p.1 ∧ r.score = round4 (sim p.1)
  | _, [], r, h => absurd h (by simp [formatFrom])
  | i0, (dist, idx) :: rest, r, h => by
    unfold formatFrom at h
    by_cases hidx : idx < docs.length
    · rw [if_pos hidx] at h
      rcases List.mem_cons.mp h with rfl | h2
      · exact ⟨(dist, idx), by simp⟩
      · obtain ⟨p, hp, h1, h2'⟩ := formatFrom_shape docs (i0 + 1) rest r h2
        exact ⟨p, by simp [hp], h1, h2'⟩
    · rw [if_neg hidx] at h
      obtain ⟨p, hp, h1, h2'⟩ := formatFrom_shape docs (i0 + 1) rest r h
      exact ⟨p, by simp [hp], h1, h2'⟩

theorem sqDist_nonneg (a b : List ℚ) : 0 ≤ sqDist a b := by
  unfold sqDist
  apply List.sum_nonneg
  intro x hx
  obtain ⟨p, _, rfl⟩ := List.mem_map.mp hx
  exact mul_self_nonneg _

theorem scoreVectorsFrom_mem (qv : List ℚ) :
    ∀ (i : ℕ) (vs : List (List ℚ)) (p : ℚ × ℕ),
      p ∈ scoreVectorsFrom qv i vs → 0 ≤ p.1 ∧ p.2 < i + vs.length
  | _, [], p, h => absurd h (by simp [scoreVectorsFrom])
  | i, v :: vs, p, h => by
    unfold scoreVectorsFrom at h
    rcases List.mem_cons.mp h with rfl | h2
    · exact ⟨sqDist_nonneg qv v, by simp⟩
    · obtain ⟨h1, h2'⟩ := scoreVectorsFrom_mem qv (i + 1) vs p h2
      exact ⟨h1, by simp; omega⟩

theorem faiss_search_mem (idx : FaissIndex) (qv : List ℚ) (k : ℤ)
    (p : ℚ × ℕ) (hp : p ∈ idx.search qv k) :
    0 ≤ p.1 ∧ p.2 < idx.vectors.length := by
  unfold FaissIndex.search at hp
  have h2 := List.mem_of_mem_take hp
  rw [List.mem_insertionSort] at h2
  have h3 := scoreVectorsFrom_mem qv 0 idx.vectors p h2
  simpa using h3

theorem search_ok_mem_shape (f : Encoder) (s : RAGStore) (q : String)
    (k : ℤ) (results : List SearchResult)
    (h : RAGStore.search f s q k = .ok results)
    (r : SearchResult) (hr : r ∈ results) :
    r.document ∈ s.documents ∧ r.score = round4 (sim r.distance) ∧
      0 ≤ r.distance := by
  unfold RAGStore.search at h
  cases hidx : s.index with
  | none =>
    rw [hidx] at h
    simp only [Except.ok.injEq] at h
    rw [← h] at hr
    simp at hr
  | some idx =>
    rw [hidx] at h
    dsimp only at h
    by_cases hlen : s.documents.length = 0
    · rw [if_pos hlen] at h
      simp only [Except.ok.injEq] at h
      rw [← h] at hr
      simp at hr
    · rw [if_neg hlen] at h
      cases hq : f q with
      | error e =>
        rw [hq] at h
        exact absurd h (by simp)
      | ok qv =>
        rw [hq] at h
        simp only [Except.ok.injEq] at h
        rw [← h] at hr
        refine ⟨formatFrom_doc_mem s.documents 0 _ r hr, ?_⟩
        obtain ⟨p, hp, hd, hs2⟩ := formatFrom_shape s.documents 0 _ r hr
        obtain ⟨hpn, _⟩ := faiss_search_mem idx qv _ p hp
        exact ⟨by rw [hs2, hd], by rw [hd]; exact hpn⟩

/-- A store holding one document with a dimension-1 embedding. -/
def storeOneDoc : RAGStore := ⟨["a"], [[0]], some ⟨1, [[0]]⟩⟩

/-- C10: every result of a successful `SimpleRAGStore.search` references a
valid corpus position: its document field is an element of the stored
corpus (the index returned by the vector search is checked against the
corpus length before use, and out-of-range hits are silently dropped). -/
theorem search_results_reference_corpus (f : Encoder) (s : RAGStore)
    (q : String) (k : ℤ) (results : List SearchResult)
    (h : RAGStore.search f s q k = .ok results) :
    ∀ r ∈ results, r.document ∈ s.documents :=
  fun r hr => (search_ok_mem_shape f s q k results h r hr).1

/-- Witness for the C10 theorem at a concrete input. -/
theorem search_results_reference_corpus_witness :
    (⟨1, "a", 1, 0⟩ : SearchResult).document ∈ storeOneDoc.documents :=
  search_results_reference_corpus encOneDim storeOneDoc "q" 1
    [⟨1, "a", 1, 0⟩] (by decide) ⟨1, "a", 1, 0⟩ (by simp)

/-- C7: every successful search result carries the score
`round4 (1 / (1 + distance))` together with the raw distance, which is
non-negative; and the similarity transform `sim` is strictly decreasing on
non-negative distances, maps 0 to 1, and has range inside (0, 1]. -/
theorem search_score_transform (f : Encoder) (s : RAGStore) (q : String)
    (k : ℤ) (results : List SearchResult)
    (h : RAGStore.search f s q k = .ok results) :
    (∀ r ∈ results, r.score = round4 (sim r.distance) ∧ 0 ≤ r.distance) ∧
    sim 0 = 1 ∧
    (∀ d1 d2 : ℚ, 0 ≤ d1 → d1 < d2 → sim d2 < sim d1) ∧
    (∀ d : ℚ, 0 ≤ d → 0 < sim d ∧ sim d ≤ 1) := by
  refine ⟨fun r hr => (search_ok_mem_shape f s q k results h r hr).2,
    ?_, ?_, ?_⟩
  · unfold sim; norm_num
  · intro d1 d2 h0 hlt
    unfold sim
    exact one_div_lt_one_div_of_lt (by linarith) (by linarith)
  · intro d h0
    unfold sim
    constructor
    · apply div_pos one_pos (by linarith)
    · rw [div_le_one (by linarith)]
      linarith

/-- Witness for the C7 theorem at a concrete input. -/
theorem search_score_transform_witness :
    (∀ r ∈ [(⟨1, "a", 1, 0⟩ : SearchResult)],
      r.score = round4 (sim r.distance) ∧ 0 ≤ r.distance) ∧
    sim 0 = 1 ∧
    (∀ d1 d2 : ℚ, 0 ≤ d1 → d1 < d2 → sim d2 < sim d1) ∧
    (∀ d : ℚ, 0 ≤ d → 0 < sim d ∧ sim d ≤ 1) :=
  search_score_transform encOneDim storeOneDoc "zz" 2 [⟨1, "a", 1, 0⟩]
    (by decide)

/-! ## C3: result count clamped to min(k, corpus size), sorted output -/

theorem scoreVectorsFrom_length (qv : List ℚ) :
    ∀ (i : ℕ) (vs : List (List ℚ)),
      (scoreVectorsFrom qv i vs).length = vs.length
  | _, [] => rfl
  | i, v :: vs => by
    simpa [scoreVectorsFrom] using scoreVectorsFrom_length qv (i + 1) vs

theorem faiss_search_sorted (idx : FaissIndex) (qv : List ℚ) (k : ℤ) :
    List.Pairwise distLe (idx.search qv k) :=
  List.Pairwise.sublist (List.take_sublist _ _)
    (List.sorted_insertionSort distLe _)

theorem faiss_search_length (idx : FaissIndex) (qv : List ℚ) (k : ℤ) :
    (idx.search qv k).length = (min k (idx.vectors.length : ℤ)).toNat := by
  unfold FaissIndex.search
  rw [List.length_take, List.length_insertionSort, scoreVectorsFrom_length]
  omega

theorem formatFrom_length_all_kept (docs : List String) :
    ∀ (i0 : ℕ) (raw : List (ℚ × ℕ)),
      (∀ p ∈ raw, p.2 < docs.length) →
      (formatFrom docs i0 raw).length = raw.length
  | _, [], _ => rfl
  | i0, (dist, idx) :: rest, hall => by
    have hidx : idx < docs.length := hall (dist, idx) (by simp)
    have hrest : ∀ p ∈ rest, p.2 < docs.length :=
      fun p hp => hall p (by simp [hp])
    simp [formatFrom, hidx,
      formatFrom_length_all_kept docs (i0 + 1) rest hrest]

theorem formatFrom_dist_map (docs : List String) :
    ∀ (i0 : ℕ) (raw : List (ℚ × ℕ)),
      (∀ p ∈ raw, p.2 < docs.length) →
      (formatFrom docs i0 raw).map SearchResult.distance = raw.map Prod.fst
  | _, [], _ => rfl
  | i0, (dist, idx) :: rest, hall => by
    have hidx : idx < docs.length := hall (dist, idx) (by simp)
    have hrest : ∀ p ∈ rest, p.2 < docs.length :=
      fun p hp => hall p (by simp [hp])
    simp [formatFrom, hidx, formatFrom_dist_map docs (i0 + 1) rest hrest]

theorem round4_mono (a b : ℚ) (hab : a ≤ b) : round4 a ≤ round4 b := by
  unfold round4
  have h2 : round (a * 10000) ≤ round (b * 10000) := by
    rw [round_eq, round_eq]
    apply Int.floor_le_floor
    nlinarith
  have h3 : ((round (a * 10000) : ℤ) : ℚ) ≤ ((round (b * 10000) : ℤ) : ℚ) := by
    exact_mod_cast h2
  exact (div_le_div_iff_of_pos_right (by norm_num)).mpr h3

theorem sim_anti (d1 d2 : ℚ) (h0 : 0 ≤ d1) (h : d1 ≤ d2) :
    sim d2 ≤ sim d1 := by
  unfold sim
  exact one_div_le_one_div_of_le (by linarith) (by linarith)

theorem create_rag_store_pure (g : String → List ℚ) (d : ℕ)
    (D : List String) (hD : D ≠ []) (hg : ∀ t, (g t).length = d) :
    create_rag_store (pureEnc g) D =
      (⟨D, D.map g, some ⟨d, D.map g⟩⟩, none) := by
  have hDE : D.isEmpty = false := by
    cases D with
    | nil => exact absurd rfl hD
    | cons a l => rfl
  have hmapne : D.map g ≠ [] := by
    cases D with
    | nil => exact absurd rfl hD
    | cons a l => simp
  have hdim : dimOf (D.map g) = some d := by
    refine dimOf_const d (D.map g) hmapne ?_
    intro v hv
    obtain ⟨t, _, rfl⟩ := List.mem_map.mp hv
    exact hg t
  have hall : (D.map g).all (fun v => v.length = d) = true := by
    simp only [List.all_eq_true, decide_eq_true_eq]
    intro v hv
    obtain ⟨t, _, rfl⟩ := List.mem_map.mp hv
    exact hg t
  unfold create_rag_store RAGStore.add_documents
  rw [hDE]
  simp only [Bool.false_eq_true, if_false, encodeBatch_pure g D]
  dsimp only [RAGStore.empty]
  simp only [List.nil_append, hdim]
  unfold FaissIndex.add
  simp only [hall, if_true, List.nil_append]

theorem fresh_search_spec (g : String → List ℚ) (d : ℕ) (D : List String)
    (q : String) (k : ℤ) (hD : D ≠ []) :
    ∃ results,
      RAGStore.search (pureEnc g) ⟨D, D.map g, some ⟨d, D.map g⟩⟩ q k =
        .ok results ∧
      results.length = min k.toNat D.length ∧
      List.Pairwise
        (fun r1 r2 => r1.distance ≤ r2.distance ∧ r2.score ≤ r1.score)
        results := by
  have hlen : ¬ (D.length = 0) := by
    cases D with
    | nil => exact absurd rfl hD
    | cons a l => simp
  unfold RAGStore.search
  dsimp only [pureEnc]
  rw [if_neg hlen]
  set raw := FaissIndex.search ⟨d, List.map g D⟩ (g q)
    (min k (D.length : ℤ)) with hraw
  have hmem : ∀ p ∈ raw, 0 ≤ p.1 ∧ p.2 < D.length := by
    intro p hp
    have h2 := faiss_search_mem _ _ _ p hp
    simpa using h2
  have hallkept : ∀ p ∈ raw, p.2 < D.length := fun p hp => (hmem p hp).2
  refine ⟨formatFrom D 0 raw, rfl, ?_, ?_⟩
  · rw [formatFrom_length_all_kept D 0 raw hallkept, hraw,
      faiss_search_length]
    simp only [List.length_map]
    omega
  · have hsorted : List.Pairwise distLe raw := faiss_search_sorted _ _ _
    have hdist : List.Pairwise (fun p p2 : ℚ × ℕ => p.1 ≤ p2.1) raw :=
      hsorted.imp (fun hpq => by
        rcases hpq with h | ⟨h, _⟩
        · exact le_of_lt h
        · exact le_of_eq h)
    have hm : (formatFrom D 0 raw).map SearchResult.distance =
        raw.map Prod.fst :=
      formatFrom_dist_map D 0 raw hallkept
    have hdist2 : List.Pairwise
        (fun a b : SearchResult => a.distance ≤ b.distance)
        (formatFrom D 0 raw) := by
      have hmapPW : List.Pairwise (fun a b : ℚ => a ≤ b)
          ((formatFrom D 0 raw).map SearchResult.distance) := by
        rw [hm]
        exact List.pairwise_map.mpr hdist
      exact List.pairwise_map.mp hmapPW
    have hshape : ∀ r ∈ formatFrom D 0 raw,
        r.score = round4 (sim r.distance) ∧ 0 ≤ r.distance := by
      intro r hr
      obtain ⟨p, hp, h1, h2⟩ := formatFrom_shape D 0 raw r hr
      exact ⟨by rw [h2, h1], by rw [h1]; exact (hmem p hp).1⟩
    refine hdist2.imp_of_mem ?_
    intro a b ha hb hab
    refine ⟨hab, ?_⟩
    rw [(hshape a ha).1, (hshape b hb).1]
    exact round4_mono _ _ (sim_anti a.distance b.distance (hshape a ha).2 hab)

/-- C3: for every fixed-dimension embedding function, non-empty document
list `D`, non-blank query and `top_k = k ≥ 1`, `search_documents` succeeds
and returns exactly `min k |D|` results (its `returned_results` field
agrees), sorted by non-decreasing distance and non-increasing score — a
`k` exceeding `|D|` is clamped and is never an error; and a search against
a store whose index is `None` (empty index) returns an empty result
list. -/
theorem search_documents_clamped_and_sorted (g : String → List ℚ) (d : ℕ)
    (q : String) (D : List String) (k : ℤ) (fe : Encoder) (s : RAGStore)
    (hg : ∀ t, (g t).length = d) (hq : isBlank q = false) (hD : D ≠ [])
    (hk : 1 ≤ k) (hs : s.index = none) :
    (∃ results,
      search_documents (pureEnc g) q D k =
        .ok ⟨q, D.length, results.length, results⟩ ∧
      results.length = min k.toNat D.length ∧
      List.Pairwise
        (fun r1 r2 => r1.distance ≤ r2.distance ∧ r2.score ≤ r1.score)
        results) ∧
    RAGStore.search fe s q k = .ok [] := by
  constructor
  · obtain ⟨results, hsearch, hlen, hpw⟩ := fresh_search_spec g d D q k hD
    refine ⟨results, ?_, hlen, hpw⟩
    unfold search_documents
    rw [hq]
    have hlenD : ¬ (D.length = 0) := by
      cases D with
      | nil => exact absurd rfl hD
      | cons a l => simp
    rw [if_neg (by simp), if_neg hlenD]
    unfold semantic_search
    rw [create_rag_store_pure g d D hD hg]
    dsimp only
    rw [hsearch]
  · unfold RAGStore.search
    rw [hs]

/-- Witness for the C3 theorem at a concrete input with `k` larger than
the corpus. -/
theorem search_documents_clamped_and_sorted_witness :
    (∃ results,
      search_documents (pureEnc (fun t => [(t.length : ℚ)])) "abc"
          ["abcd", "a"] 5 =
        .ok ⟨"abc", ["abcd", "a"].length, results.length, results⟩ ∧
      results.length = min (5 : ℤ).toNat ["abcd", "a"].length ∧
      List.Pairwise
        (fun r1 r2 => r1.distance ≤ r2.distance ∧ r2.score ≤ r1.score)
        results) ∧
    RAGStore.search encOneDim RAGStore.empty "abc" 5 = .ok [] :=
  search_documents_clamped_and_sorted (fun t => [(t.length : ℚ)]) 1 "abc"
    ["abcd", "a"] 5 encOneDim RAGStore.empty (fun t => rfl) (by decide)
    (by simp) (by decide) rfl
